import Mathlib

/-!
Verification development for the sp500-ohlc pipeline.

The definitions below are a shallow embedding of the Python sources:
src/fetch_ohlc.py (ticker reading, the Stooq fetcher, the per-symbol run
loop and the artifact writes of main) and src/upload_r2_tickers.py (the
manifest upload).  Python strings are modelled as lists of characters with
ASCII case mapping, which covers the ticker strings the scripts handle.
Machine-level details that no claim depends on (pandas internals, the HTTP
client, file encodings) are abstracted into explicit parameters.
-/

namespace SP500

/-- Whitespace test used by the model of Python str.strip: space, tab,
line feed and carriage return. -/
def wsChar (c : Char) : Bool :=
  decide (c.toNat = 32 ∨ c.toNat = 9 ∨ c.toNat = 10 ∨ c.toNat = 13)

/-- ASCII upper-casing of one character, the model of Python str.upper on
the ticker alphabet. -/
def upChar (c : Char) : Char :=
  if 97 ≤ c.toNat ∧ c.toNat ≤ 122 then Char.ofNat (c.toNat - 32) else c

/-- ASCII lower-casing of one character, the model of Python str.lower on
the ticker alphabet. -/
def lowChar (c : Char) : Char :=
  if 65 ≤ c.toNat ∧ c.toNat ≤ 90 then Char.ofNat (c.toNat + 32) else c

/-- Strip leading whitespace from a list of characters. -/
def stripLeft (l : List Char) : List Char := l.dropWhile wsChar

/-- Strip trailing whitespace from a list of characters. -/
def stripRight (l : List Char) : List Char := (l.reverse.dropWhile wsChar).reverse

/-- Model of Python str.strip on a list of characters. -/
def trimL (l : List Char) : List Char := stripRight (stripLeft l)

/-- Model of the expression t.strip().upper() applied per line in
read_tickers of src/fetch_ohlc.py. -/
def pynorm (l : List Char) : List Char := (trimL l).map upChar

/-- String-level version of pynorm. -/
def pynormS (s : String) : String := ⟨pynorm s.data⟩

/-- Model of read_tickers in src/fetch_ohlc.py: keep every line whose
stripped form is nonempty and map it to its stripped upper-cased form.
The source applies no de-duplication, no alias table and no separator
substitution. -/
def read_tickers (lines : List String) : List String :=
  lines.filterMap (fun t => if trimL t.data = [] then none else some (pynormS t))

/-- Boolean test that the first list is an initial segment of the second. -/
def startsWithL : List Char → List Char → Bool
  | [], _ => true
  | _ :: _, [] => false
  | p :: ps, c :: cs => p.toNat == c.toNat && startsWithL ps cs

/-- Model of is_html in src/fetch_ohlc.py: strip and lower-case the body,
then test for a markup-document prefix. -/
def is_html (text : String) : Bool :=
  let t := (trimL text.data).map lowChar
  startsWithL "<!doctype".data t || startsWithL "<html".data t

/-- One OHLC row of a fetched data frame: the REQUIRED columns Date, Open,
High, Low, Close, Volume of src/fetch_ohlc.py.  The date is a day number
and the numeric fields are integers (in cents); the scripts never compute
with the numeric values, they are only carried and compared. -/
structure Bar where
  date : Nat
  opn : Int
  hi : Int
  lo : Int
  cls : Int
  vol : Int
deriving DecidableEq, Repr

/-- One row of the aggregate latest artifact: a bar tagged with the Symbol
column added by main of src/fetch_ohlc.py. -/
structure Row where
  sym : String
  bar : Bar
deriving DecidableEq, Repr

/-- Upstream response to one candidate request in fetch_stooq: either an
HTTP response with a status code and a body, or a raised exception
(network failure or timeout). -/
inductive Resp where
  | http (status : Nat) (text : String)
  | exn (msg : String)

/-- Abstraction of pandas read_csv followed by normalize_headers, the Date
coercion and validate_df on a body: the parse can throw an exception, can
produce a frame that validate_df rejects, or can produce a valid frame. -/
inductive ParseRes where
  | throws (msg : String)
  | invalid (why : String)
  | ok (df : List Bar)

/-- Environment of one fetch_stooq call: the network, keyed by candidate
symbol string, and the CSV parsing stage. -/
structure StooqEnv where
  resp : String → Resp
  parse : String → ParseRes

/-- One candidate attempt inside fetch_stooq, paired with the sleep in
milliseconds executed after the attempt: time.sleep(0.5) runs only in the
except branch of the source, never after an HTTP status failure, a
content-sniffing failure or a validate_df rejection. -/
def tryCand (env : StooqEnv) (c : String) : Except String (List Bar) × Nat :=
  match env.resp c with
  | .exn m => (.error m, 500)
  | .http st txt =>
    if st ≠ 200 then (.error "http error", 0)
    else if trimL txt.data = [] ∨ is_html txt = true then (.error "non-CSV response", 0)
    else match env.parse txt with
      | .throws m => (.error m, 500)
      | .invalid why => (.error why, 0)
      | .ok df => (.ok df, 0)

/-- Result of one fetch_stooq call together with the trace of candidate
requests issued and the sleeps executed. -/
structure FetchTrace where
  result : Except String (List Bar)
  attempted : List String
  sleeps : List Nat
deriving Repr

/-- Candidate loop of fetch_stooq: try each candidate in order, stop at the
first success, and after the last candidate raise the last recorded
error. -/
def goCands (env : StooqEnv) : List String → String → FetchTrace
  | [], lastErr => ⟨.error lastErr, [], []⟩
  | c :: rest, lastErr =>
    match tryCand env c with
    | (.ok df, _) => ⟨.ok df, [c], []⟩
    | (.error e, sl) =>
      let t := goCands env rest e
      ⟨t.result, c :: t.attempted, (if sl = 0 then [] else [sl]) ++ t.sleeps⟩

/-- First candidate symbol form of fetch_stooq: sym.lower(). -/
def cand1 (sym : String) : String := ⟨sym.data.map lowChar⟩

/-- Second candidate symbol form of fetch_stooq: sym.lower() + ".us". -/
def cand2 (sym : String) : String := ⟨sym.data.map lowChar ++ ".us".data⟩

/-- Model of fetch_stooq in src/fetch_ohlc.py: the two candidate symbol
forms are tried in order, each exactly once. -/
def fetch_stooq (env : StooqEnv) (sym : String) : FetchTrace :=
  goCands env [cand1 sym, cand2 sym] "unknown stooq error"

/-- Boolean success test on a fetch outcome. -/
def okb (r : Except String (List Bar)) : Bool :=
  match r with
  | .ok _ => true
  | .error _ => false

/-- File-system state relevant to one run of main in src/fetch_ohlc.py:
the aggregate latest artifact, the yesterday artifact, the lines of
tickers.txt, the per-symbol raw files (an association list) and the
bad-ticker log. -/
structure FS where
  latest : Option (List Row)
  yday : Option (List Row)
  tickersFile : List String
  raw : List (String × List Bar)
  badLog : List (String × String)
deriving Repr

/-- Accumulated effects of the per-symbol loop of main: the tagged frames,
the processed symbols, the bad-ticker entries and the raw file writes, all
in processing order. -/
structure RunOut where
  frames : List (List Row)
  processed : List String
  bad : List (String × String)
  rawWrites : List (String × List Bar)
deriving Repr

/-- Model of the per-symbol loop of main in src/fetch_ohlc.py: on success
the frame tagged with the symbol is collected, the raw per-symbol file is
written and the symbol is recorded as processed; on failure the symbol and
reason are appended to the bad-ticker log. -/
def runLoop (o : String → Except String (List Bar)) : List String → RunOut
  | [] => ⟨[], [], [], []⟩
  | sym :: rest =>
    match o sym with
    | .ok df =>
      let ro := runLoop o rest
      ⟨df.map (fun b => ⟨sym, b⟩) :: ro.frames, sym :: ro.processed, ro.bad,
        (sym, df) :: ro.rawWrites⟩
    | .error e =>
      let ro := runLoop o rest
      ⟨ro.frames, ro.processed, (sym, e) :: ro.bad, ro.rawWrites⟩

/-- Python string comparison: lexicographic on code points, with a shorter
string preceding any extension of it. -/
def lexLe : List Char → List Char → Bool
  | [], _ => true
  | _ :: _, [] => false
  | a :: as, b :: bs =>
    if a.toNat < b.toNat then true
    else if b.toNat < a.toNat then false
    else lexLe as bs

/-- String-level lexicographic comparison. -/
def symLe (s t : String) : Bool := lexLe s.data t.data

/-- Sort key of all_df.sort_values with Date first and Symbol second, as
written in main of src/fetch_ohlc.py. -/
def rowLe (a b : Row) : Prop :=
  a.bar.date < b.bar.date ∨ (a.bar.date = b.bar.date ∧ symLe a.sym b.sym = true)

instance : DecidableRel rowLe := fun a b => by unfold rowLe; exact inferInstance

/-- The deterministic post-hoc sort of the concatenated frames. -/
def sortRows (rows : List Row) : List Row := List.insertionSort rowLe rows

/-- Lookup in an association list of raw per-symbol files. -/
def lookupRaw (raw : List (String × List Bar)) (s : String) : Option (List Bar) :=
  match raw with
  | [] => none
  | (k, v) :: rest => if k = s then some v else lookupRaw rest s

/-- Overwrite or create one raw per-symbol file. -/
def setRaw (raw : List (String × List Bar)) (s : String) (df : List Bar) :
    List (String × List Bar) :=
  match raw with
  | [] => [(s, df)]
  | (k, v) :: rest => if k = s then (s, df) :: rest else (k, v) :: setRaw rest s df

/-- Apply the raw file writes of a run, in chronological order. -/
def applyWrites (raw : List (String × List Bar)) (ws : List (String × List Bar)) :
    List (String × List Bar) :=
  ws.foldl (fun acc kv => setRaw acc kv.1 kv.2) raw

/-- Model of main in src/fetch_ohlc.py.  The bad-ticker log is reset and
rebuilt every run.  When no frame was fetched the run exits with code 1
and leaves every other artifact as it was; otherwise the aggregate latest
artifact is the concatenation of the fetched frames sorted by Date then
Symbol, the yesterday artifact is its rows at the target date, and
tickers.txt is rewritten to the processed symbols. -/
def pymain (fs : FS) (o : String → Except String (List Bar)) (ydate : Nat) : FS × Nat :=
  let tickers := read_tickers fs.tickersFile
  let ro := runLoop o tickers
  let raw2 := applyWrites fs.raw ro.rawWrites
  if ro.frames = [] then
    ({ fs with badLog := ro.bad, raw := raw2 }, 1)
  else
    let rows := sortRows ro.frames.flatten
    ({ latest := some rows
       yday := some (rows.filter (fun r => r.bar.date == ydate))
       tickersFile := ro.processed
       raw := raw2
       badLog := ro.bad }, 0)

/-- Composition of main with the fetcher: the per-symbol outcome of a run
is the fetch_stooq result in a fixed environment. -/
def pymainEnv (fs : FS) (env : StooqEnv) (ydate : Nat) : FS × Nat :=
  pymain fs (fun sym => (fetch_stooq env sym).result) ydate

/-- Symbols of the aggregate latest artifact produced by this run, in
artifact order; empty when the run aborted without writing it. -/
def snapSyms (ro : RunOut) : List String :=
  (sortRows ro.frames.flatten).map (fun r => r.sym)

/-- Symbols recorded in the bad-ticker log of this run. -/
def badSyms (ro : RunOut) : List String := ro.bad.map Prod.fst

/-- Manifest object written by main in src/upload_r2_tickers.py. -/
structure Manifest where
  generated_at_utc : String
  count : Nat
  files : List String
deriving DecidableEq, Repr

/-- Manifest content built for one run: a fresh timestamp, the ticker
count of this run and the constant files list. -/
def manifestFor (tickers : List String) (now : String) : Manifest :=
  ⟨now, tickers.length, ["ohlc/latest_sp500.json"]⟩

/-- Remote bucket state touched by the manifest upload. -/
structure Bucket where
  manifest : Option Manifest
deriving DecidableEq, Repr

/-- Model of the manifest step of main in src/upload_r2_tickers.py: the
put_object call overwrites ohlc/manifest.json with the freshly built
object and never reads the previous one. -/
def runUpload (b : Bucket) (tickers : List String) (now : String) : Bucket :=
  { manifest := some (manifestFor tickers now) }

/-! ### Character and trimming lemmas -/

theorem toNat_ofNat_valid (n : Nat) (h : n.isValidChar) : (Char.ofNat n).toNat = n := by
  unfold Char.ofNat
  rw [dif_pos h]
  rfl

theorem upChar_def (c : Char) :
    upChar c = if 97 ≤ c.toNat ∧ c.toNat ≤ 122 then Char.ofNat (c.toNat - 32) else c := rfl

theorem upChar_toNat_of_lower (c : Char) (h : 97 ≤ c.toNat ∧ c.toNat ≤ 122) :
    (upChar c).toNat = c.toNat - 32 := by
  rw [upChar_def, if_pos h, toNat_ofNat_valid]
  exact Or.inl (by omega)

theorem upChar_idem (c : Char) : upChar (upChar c) = upChar c := by
  by_cases h : 97 ≤ c.toNat ∧ c.toNat ≤ 122
  · have h2 : (upChar c).toNat = c.toNat - 32 := upChar_toNat_of_lower c h
    rw [upChar_def (upChar c), if_neg (by rw [h2]; omega)]
  · have hc : upChar c = c := by rw [upChar_def, if_neg h]
    rw [hc, hc]

theorem wsChar_upChar (c : Char) : wsChar (upChar c) = wsChar c := by
  by_cases h : 97 ≤ c.toNat ∧ c.toNat ≤ 122
  · have h2 := upChar_toNat_of_lower c h
    simp only [wsChar, h2]
    rw [decide_eq_decide]
    omega
  · have hc : upChar c = c := by rw [upChar_def, if_neg h]
    rw [hc]

theorem dropWhile_dropWhile {α : Type} (p : α → Bool) :
    ∀ l : List α, (l.dropWhile p).dropWhile p = l.dropWhile p
  | [] => rfl
  | a :: l => by
    simp only [List.dropWhile_cons]
    by_cases h : p a
    · simp only [if_pos h]
      exact dropWhile_dropWhile p l
    · simp only [if_neg h, List.dropWhile_cons, if_neg h]

theorem dropWhile_append_singleton {α : Type} (p : α → Bool) (c : α) (hc : p c = false) :
    ∀ s : List α, (s ++ [c]).dropWhile p = s.dropWhile p ++ [c]
  | [] => by simp [List.dropWhile_cons, hc]
  | a :: s => by
    simp only [List.cons_append, List.dropWhile_cons]
    by_cases h : p a
    · simp only [if_pos h]
      exact dropWhile_append_singleton p c hc s
    · simp only [if_neg h, List.cons_append]

theorem dropWhile_map_comm {α : Type} (p : α → Bool) (f : α → α)
    (hf : ∀ c, p (f c) = p c) :
    ∀ l : List α, (l.map f).dropWhile p = (l.dropWhile p).map f
  | [] => rfl
  | a :: l => by
    simp only [List.map_cons, List.dropWhile_cons, hf a]
    by_cases h : p a
    · simp only [if_pos h]
      exact dropWhile_map_comm p f hf l
    · simp only [if_neg h, List.map_cons]

theorem stripLeft_stripLeft (l : List Char) : stripLeft (stripLeft l) = stripLeft l :=
  dropWhile_dropWhile wsChar l

theorem stripRight_stripRight (x : List Char) : stripRight (stripRight x) = stripRight x := by
  unfold stripRight
  rw [List.reverse_reverse, dropWhile_dropWhile]

theorem stripLeft_head_false {c : Char} {t : List Char}
    (h : stripLeft (c :: t) = c :: t) : wsChar c = false := by
  cases hc : wsChar c
  · rfl
  · exfalso
    unfold stripLeft at h
    rw [List.dropWhile_cons, if_pos hc] at h
    have hl := congrArg List.length h
    have hle := (List.dropWhile_sublist (l := t) wsChar).length_le
    simp at hl
    omega

theorem stripRight_cons (c : Char) (t : List Char) (hc : wsChar c = false) :
    stripRight (c :: t) = c :: stripRight t := by
  unfold stripRight
  rw [List.reverse_cons, dropWhile_append_singleton wsChar c hc, List.reverse_append]
  simp

theorem stripLeft_stripRight_of_stripLeft (x : List Char) (h : stripLeft x = x) :
    stripLeft (stripRight x) = stripRight x := by
  cases x with
  | nil => rfl
  | cons c t =>
    have hc : wsChar c = false := stripLeft_head_false h
    rw [stripRight_cons c t hc]
    unfold stripLeft
    rw [List.dropWhile_cons, if_neg (by simp [hc])]

theorem trimL_idem (l : List Char) : trimL (trimL l) = trimL l := by
  unfold trimL
  have h1 : stripLeft (stripLeft l) = stripLeft l := stripLeft_stripLeft l
  rw [stripLeft_stripRight_of_stripLeft (stripLeft l) h1, stripRight_stripRight]

theorem stripLeft_map_upChar (l : List Char) :
    stripLeft (l.map upChar) = (stripLeft l).map upChar :=
  dropWhile_map_comm wsChar upChar wsChar_upChar l

theorem stripRight_map_upChar (l : List Char) :
    stripRight (l.map upChar) = (stripRight l).map upChar := by
  unfold stripRight
  rw [← List.map_reverse, dropWhile_map_comm wsChar upChar wsChar_upChar, List.map_reverse]

theorem trimL_map_upChar (l : List Char) :
    trimL (l.map upChar) = (trimL l).map upChar := by
  unfold trimL
  rw [stripLeft_map_upChar, stripRight_map_upChar]

theorem map_upChar_idem (l : List Char) :
    (l.map upChar).map upChar = l.map upChar := by
  rw [List.map_map]
  induction l with
  | nil => rfl
  | cons c t ih => simp only [List.map_cons, Function.comp_apply, upChar_idem, ih]

theorem pynorm_idem (l : List Char) : pynorm (pynorm l) = pynorm l := by
  unfold pynorm
  rw [trimL_map_upChar, map_upChar_idem, trimL_idem]

/-! ### Lexicographic comparison lemmas -/

theorem lexLe_total : ∀ a b : List Char, lexLe a b = true ∨ lexLe b a = true
  | [], _ => Or.inl rfl
  | _ :: _, [] => Or.inr rfl
  | a :: as, b :: bs => by
    by_cases h1 : a.toNat < b.toNat
    · exact Or.inl (by simp [lexLe, h1])
    · by_cases h2 : b.toNat < a.toNat
      · exact Or.inr (by simp [lexLe, h2])
      · rcases lexLe_total as bs with h | h
        · exact Or.inl (by simp [lexLe, h1, h2, h])
        · exact Or.inr (by simp [lexLe, h1, h2, h])

theorem lexLe_trans : ∀ a b c : List Char,
    lexLe a b = true → lexLe b c = true → lexLe a c = true
  | [], _, _, _, _ => rfl
  | _ :: _, [], _, h, _ => by simp [lexLe] at h
  | _ :: _, _ :: _, [], _, h => by simp [lexLe] at h
  | a :: as, b :: bs, c :: cs, h1, h2 => by
    simp only [lexLe] at h1 h2 ⊢
    by_cases hab : a.toNat < b.toNat
    · by_cases hbc : b.toNat < c.toNat
      · simp [show a.toNat < c.toNat by omega]
      · by_cases hcb : c.toNat < b.toNat
        · simp [hbc, hcb] at h2
        · have hbceq : b.toNat = c.toNat := by omega
          simp [show a.toNat < c.toNat by omega]
    · by_cases hba : b.toNat < a.toNat
      · simp [hab, hba] at h1
      · have habeq : a.toNat = b.toNat := by omega
        by_cases hbc : b.toNat < c.toNat
        · simp [show a.toNat < c.toNat by omega]
        · by_cases hcb : c.toNat < b.toNat
          · simp [hbc, hcb] at h2
          · have hbceq : b.toNat = c.toNat := by omega
            simp only [hab, hba, if_neg] at h1
            simp only [hbc, hcb, if_neg] at h2
            simp [show ¬ a.toNat < c.toNat by omega, show ¬ c.toNat < a.toNat by omega,
              lexLe_trans as bs cs h1 h2]

instance : IsTrans Row rowLe := by
  constructor
  intro a b c hab hbc
  unfold rowLe at *
  rcases hab with h1 | ⟨h1, s1⟩ <;> rcases hbc with h2 | ⟨h2, s2⟩
  · exact Or.inl (by omega)
  · exact Or.inl (by omega)
  · exact Or.inl (by omega)
  · exact Or.inr ⟨h1.trans h2, lexLe_trans _ _ _ s1 s2⟩

instance : IsTotal Row rowLe := by
  constructor
  intro a b
  unfold rowLe
  rcases Nat.lt_trichotomy a.bar.date b.bar.date with h | h | h
  · exact Or.inl (Or.inl h)
  · rcases lexLe_total a.sym.data b.sym.data with hs | hs
    · exact Or.inl (Or.inr ⟨h, hs⟩)
    · exact Or.inr (Or.inr ⟨h.symm, hs⟩)
  · exact Or.inr (Or.inl h)

/-! ### Run loop lemmas -/

theorem runLoop_cons_ok (o : String → Except String (List Bar)) (sym : String)
    (rest : List String) (df : List Bar) (h : o sym = .ok df) :
    runLoop o (sym :: rest) =
      ⟨df.map (fun b => ⟨sym, b⟩) :: (runLoop o rest).frames,
        sym :: (runLoop o rest).processed, (runLoop o rest).bad,
        (sym, df) :: (runLoop o rest).rawWrites⟩ := by
  simp only [runLoop, h]

theorem runLoop_cons_error (o : String → Except String (List Bar)) (sym : String)
    (rest : List String) (e : String) (h : o sym = .error e) :
    runLoop o (sym :: rest) =
      ⟨(runLoop o rest).frames, (runLoop o rest).processed,
        (sym, e) :: (runLoop o rest).bad, (runLoop o rest).rawWrites⟩ := by
  simp only [runLoop, h]

theorem mem_processed (o : String → Except String (List Bar)) :
    ∀ (ts : List String) (sym : String),
      sym ∈ (runLoop o ts).processed ↔ sym ∈ ts ∧ okb (o sym) = true
  | [], sym => by simp [runLoop]
  | t :: ts, sym => by
    cases ho : o t with
    | ok df =>
      rw [runLoop_cons_ok o t ts df ho]
      simp only [List.mem_cons]
      constructor
      · rintro (rfl | h)
        · exact ⟨Or.inl rfl, by simp [okb, ho]⟩
        · have h2 := (mem_processed o ts sym).1 h
          exact ⟨Or.inr h2.1, h2.2⟩
      · rintro ⟨rfl | hmem, hok⟩
        · exact Or.inl rfl
        · exact Or.inr ((mem_processed o ts sym).2 ⟨hmem, hok⟩)
    | error e =>
      rw [runLoop_cons_error o t ts e ho]
      simp only [List.mem_cons]
      constructor
      · intro h
        have h2 := (mem_processed o ts sym).1 h
        exact ⟨Or.inr h2.1, h2.2⟩
      · rintro ⟨rfl | hmem, hok⟩
        · simp [okb, ho] at hok
        · exact (mem_processed o ts sym).2 ⟨hmem, hok⟩

theorem mem_badSyms (o : String → Except String (List Bar)) :
    ∀ (ts : List String) (sym : String),
      sym ∈ badSyms (runLoop o ts) ↔ sym ∈ ts ∧ okb (o sym) = false
  | [], sym => by simp [runLoop, badSyms]
  | t :: ts, sym => by
    cases ho : o t with
    | ok df =>
      rw [badSyms, runLoop_cons_ok o t ts df ho]
      simp only [List.mem_cons]
      constructor
      · intro h
        have h2 := (mem_badSyms o ts sym).1 h
        exact ⟨Or.inr h2.1, h2.2⟩
      · rintro ⟨rfl | hmem, hok⟩
        · simp [okb, ho] at hok
        · exact (mem_badSyms o ts sym).2 ⟨hmem, hok⟩
    | error e =>
      rw [badSyms, runLoop_cons_error o t ts e ho]
      simp only [List.map_cons, List.mem_cons]
      constructor
      · rintro (rfl | h)
        · exact ⟨Or.inl rfl, by simp [okb, ho]⟩
        · have h2 := (mem_badSyms o ts sym).1 h
          exact ⟨Or.inr h2.1, h2.2⟩
      · rintro ⟨rfl | hmem, hok⟩
        · exact Or.inl rfl
        · exact Or.inr ((mem_badSyms o ts sym).2 ⟨hmem, hok⟩)

theorem processed_eq_filter (o : String → Except String (List Bar)) :
    ∀ ts : List String, (runLoop o ts).processed = ts.filter (fun s => okb (o s))
  | [] => rfl
  | t :: ts => by
    cases ho : o t with
    | ok df =>
      rw [runLoop_cons_ok o t ts df ho, List.filter_cons]
      simp [okb, ho, processed_eq_filter o ts]
    | error e =>
      rw [runLoop_cons_error o t ts e ho, List.filter_cons]
      simp [okb, ho, processed_eq_filter o ts]

theorem rawWrites_fst (o : String → Except String (List Bar)) :
    ∀ ts : List String, (runLoop o ts).rawWrites.map Prod.fst = (runLoop o ts).processed
  | [] => rfl
  | t :: ts => by
    cases ho : o t with
    | ok df =>
      rw [runLoop_cons_ok o t ts df ho]
      simp [rawWrites_fst o ts]
    | error e =>
      rw [runLoop_cons_error o t ts e ho]
      exact rawWrites_fst o ts

theorem mem_flatten_syms_imp (o : String → Except String (List Bar)) :
    ∀ (ts : List String) (sym : String),
      sym ∈ (runLoop o ts).frames.flatten.map (fun r => r.sym) →
      sym ∈ (runLoop o ts).processed
  | [], sym => by simp [runLoop]
  | t :: ts, sym => by
    cases ho : o t with
    | ok df =>
      rw [runLoop_cons_ok o t ts df ho]
      simp only [List.flatten_cons, List.map_append, List.mem_append, List.map_map,
        List.mem_cons]
      rintro (h | h)
      · rcases List.mem_map.1 h with ⟨b, _, hb⟩
        exact Or.inl hb.symm
      · exact Or.inr (mem_flatten_syms_imp o ts sym h)
    | error e =>
      rw [runLoop_cons_error o t ts e ho]
      exact mem_flatten_syms_imp o ts sym

theorem processed_imp_mem_flatten_syms (o : String → Except String (List Bar))
    (hne : ∀ s l, o s = .ok l → l ≠ []) :
    ∀ (ts : List String) (sym : String),
      sym ∈ (runLoop o ts).processed →
      sym ∈ (runLoop o ts).frames.flatten.map (fun r => r.sym)
  | [], sym => by simp [runLoop]
  | t :: ts, sym => by
    cases ho : o t with
    | ok df =>
      rw [runLoop_cons_ok o t ts df ho]
      simp only [List.mem_cons, List.flatten_cons, List.map_append, List.mem_append]
      rintro (rfl | hmem)
      · left
        cases hdf : df with
        | nil => exact absurd hdf (hne _ df ho)
        | cons b bs =>
          subst hdf
          exact List.mem_map.2 ⟨⟨sym, b⟩, by simp, rfl⟩
      · exact Or.inr (processed_imp_mem_flatten_syms o hne ts sym hmem)
    | error e =>
      rw [runLoop_cons_error o t ts e ho]
      exact processed_imp_mem_flatten_syms o hne ts sym

theorem runLoop_all_fail (o : String → Except String (List Bar)) :
    ∀ ts : List String, (∀ s ∈ ts, okb (o s) = false) →
      (runLoop o ts).frames = [] ∧ (runLoop o ts).rawWrites = []
  | [], _ => ⟨rfl, rfl⟩
  | t :: ts, h => by
    cases ho : o t with
    | ok df =>
      have := h t (List.mem_cons_self t ts)
      simp [okb, ho] at this
    | error e =>
      rw [runLoop_cons_error o t ts e ho]
      exact runLoop_all_fail o ts (fun s hs => h s (List.mem_cons_of_mem t hs))

theorem mem_snapSyms_iff_flatten (ro : RunOut) (sym : String) :
    sym ∈ snapSyms ro ↔ sym ∈ ro.frames.flatten.map (fun r => r.sym) := by
  unfold snapSyms sortRows
  simp only [List.mem_map, List.mem_insertionSort]

/-! ### Raw file write lemmas -/

theorem lookupRaw_setRaw_ne (s k : String) (df : List Bar) (h : k ≠ s) :
    ∀ raw : List (String × List Bar), lookupRaw (setRaw raw k df) s = lookupRaw raw s
  | [] => by simp [setRaw, lookupRaw, h]
  | (a, v) :: rest => by
    by_cases ha : a = k
    · subst ha
      simp [setRaw, lookupRaw, h]
    · simp [setRaw, lookupRaw, ha, lookupRaw_setRaw_ne s k df h rest]

theorem lookupRaw_applyWrites (s : String) :
    ∀ (ws : List (String × List Bar)) (raw : List (String × List Bar)),
      s ∉ ws.map Prod.fst → lookupRaw (applyWrites raw ws) s = lookupRaw raw s
  | [], _, _ => rfl
  | (k, df) :: ws, raw, h => by
    simp only [List.map_cons, List.mem_cons, not_or] at h
    have hstep : applyWrites raw ((k, df) :: ws) = applyWrites (setRaw raw k df) ws := rfl
    rw [hstep, lookupRaw_applyWrites s ws (setRaw raw k df) h.2,
      lookupRaw_setRaw_ne s k df (fun he => h.1 he.symm) raw]

/-! ### Unfolding lemmas for pymain -/

theorem pymain_fail (fs : FS) (o : String → Except String (List Bar)) (ydate : Nat)
    (h : (runLoop o (read_tickers fs.tickersFile)).frames = []) :
    pymain fs o ydate =
      ({ fs with
          badLog := (runLoop o (read_tickers fs.tickersFile)).bad
          raw := applyWrites fs.raw (runLoop o (read_tickers fs.tickersFile)).rawWrites }, 1) := by
  simp only [pymain]
  rw [if_pos h]

theorem pymain_ok (fs : FS) (o : String → Except String (List Bar)) (ydate : Nat)
    (h : (runLoop o (read_tickers fs.tickersFile)).frames ≠ []) :
    pymain fs o ydate =
      ({ latest := some (sortRows (runLoop o (read_tickers fs.tickersFile)).frames.flatten)
         yday := some ((sortRows (runLoop o (read_tickers fs.tickersFile)).frames.flatten).filter
           (fun r => r.bar.date == ydate))
         tickersFile := (runLoop o (read_tickers fs.tickersFile)).processed
         raw := applyWrites fs.raw (runLoop o (read_tickers fs.tickersFile)).rawWrites
         badLog := (runLoop o (read_tickers fs.tickersFile)).bad }, 0) := by
  simp only [pymain]
  rw [if_neg h]

theorem pymain_badLog (fs : FS) (o : String → Except String (List Bar)) (ydate : Nat) :
    (pymain fs o ydate).1.badLog = (runLoop o (read_tickers fs.tickersFile)).bad := by
  by_cases h : (runLoop o (read_tickers fs.tickersFile)).frames = []
  · rw [pymain_fail fs o ydate h]
  · rw [pymain_ok fs o ydate h]

theorem pymain_raw (fs : FS) (o : String → Except String (List Bar)) (ydate : Nat) :
    (pymain fs o ydate).1.raw =
      applyWrites fs.raw (runLoop o (read_tickers fs.tickersFile)).rawWrites := by
  by_cases h : (runLoop o (read_tickers fs.tickersFile)).frames = []
  · rw [pymain_fail fs o ydate h]
  · rw [pymain_ok fs o ydate h]

/-! ### Fetch trace lemmas -/

theorem tryCand_sleep (env : StooqEnv) (c : String) :
    (tryCand env c).2 = 0 ∨ (tryCand env c).2 = 500 := by
  unfold tryCand
  cases env.resp c with
  | exn m => exact Or.inr rfl
  | http st txt =>
    dsimp only
    by_cases h1 : st ≠ 200
    · rw [if_pos h1]
      exact Or.inl rfl
    · rw [if_neg h1]
      by_cases h2 : trimL txt.data = [] ∨ is_html txt = true
      · rw [if_pos h2]
        exact Or.inl rfl
      · rw [if_neg h2]
        cases env.parse txt with
        | throws m => exact Or.inr rfl
        | invalid why => exact Or.inl rfl
        | ok df => exact Or.inl rfl

theorem goCands_nil (env : StooqEnv) (lastErr : String) :
    goCands env [] lastErr = ⟨.error lastErr, [], []⟩ := rfl

theorem goCands_cons_ok (env : StooqEnv) (c : String) (rest : List String)
    (lastErr : String) (df : List Bar) (sl : Nat) (h : tryCand env c = (.ok df, sl)) :
    goCands env (c :: rest) lastErr = ⟨.ok df, [c], []⟩ := by
  simp only [goCands, h]

theorem goCands_cons_error (env : StooqEnv) (c : String) (rest : List String)
    (lastErr : String) (e : String) (sl : Nat) (h : tryCand env c = (.error e, sl)) :
    goCands env (c :: rest) lastErr =
      ⟨(goCands env rest e).result, c :: (goCands env rest e).attempted,
        (if sl = 0 then [] else [sl]) ++ (goCands env rest e).sleeps⟩ := by
  simp only [goCands, h]

theorem goCands_all_error (env : StooqEnv)
    (hall : ∀ c, ∃ e, (tryCand env c).1 = .error e) :
    ∀ (cs : List String) (lastErr : String), ∃ e, (goCands env cs lastErr).result = .error e
  | [], lastErr => ⟨lastErr, rfl⟩
  | c :: cs, lastErr => by
    obtain ⟨e, he⟩ := hall c
    have hec : tryCand env c = (.error e, (tryCand env c).2) := by rw [← he]
    rw [goCands_cons_error env c cs lastErr e _ hec]
    exact goCands_all_error env hall cs e

theorem tryCand_html_error (env : StooqEnv) (c : String) (st : Nat) (txt : String)
    (hresp : env.resp c = .http st txt)
    (hbody : trimL txt.data = [] ∨ is_html txt = true) :
    ∃ e, (tryCand env c).1 = .error e := by
  unfold tryCand
  rw [hresp]
  dsimp only
  by_cases h1 : st ≠ 200
  · rw [if_pos h1]
    exact ⟨_, rfl⟩
  · rw [if_neg h1]
    rw [if_pos hbody]
    exact ⟨_, rfl⟩

/-! ### Concrete runs used by counterexamples and witnesses -/

def bar0 : Bar := ⟨1, 10, 12, 9, 11, 1000⟩

def bar1 : Bar := ⟨2, 20, 22, 19, 21, 2000⟩

def bar2 : Bar := ⟨3, 30, 33, 29, 31, 3000⟩

/-- Prior state with a latest artifact and a raw file for AAPL, and a run
over tickers AAPL and MSFT. -/
def fsAB : FS :=
  { latest := some [⟨"AAPL", bar0⟩]
    yday := none
    tickersFile := ["AAPL", "MSFT"]
    raw := [("AAPL", [bar0])]
    badLog := [] }

/-- Outcome function where AAPL fails and every other symbol succeeds. -/
def oAB : String → Except String (List Bar) :=
  fun s => if s = "AAPL" then .error "http 404" else .ok [bar1]

/-- Outcome function where every symbol fails. -/
def oDown : String → Except String (List Bar) :=
  fun _ => .error "connection refused"

/-- Run over tickers AAA and BBB where AAA has two bars at the later dates
and BBB one bar at the earliest date. -/
def fsBA : FS :=
  { latest := none
    yday := none
    tickersFile := ["AAA", "BBB"]
    raw := []
    badLog := [] }

def oBA : String → Except String (List Bar) :=
  fun s => if s = "AAA" then .ok [bar1, bar2] else .ok [bar0]

theorem oAB_ok_nonempty : ∀ s l, oAB s = .ok l → l ≠ [] := by
  intro s l h
  unfold oAB at h
  split at h
  · exact Except.noConfusion h
  · injection h with h2
    subst h2
    simp

/-- Stooq environment that always times out, and one that always answers
with an HTML error page while the parser is adversarially permissive. -/
def envTimeout : StooqEnv :=
  ⟨fun _ => .exn "timeout", fun _ => .throws "unreachable"⟩

def envHtml : StooqEnv :=
  ⟨fun _ => .http 200 "<html><body>error page</body></html>", fun _ => .ok [bar1]⟩

/-- Manifest left by an earlier hypothetical run that recorded a dated
archive entry. -/
def prevManifest : Manifest :=
  ⟨"2024-01-01T00:00:00Z", 1, ["ohlc/2024-01-01.json"]⟩

/-! ### Claim theorems -/

/-- C1 counterexample: the symbol AAPL has a prior Snapshot entry (a row in
the previous latest artifact and a raw file) and a non-Fetched outcome in
the current run, yet the new aggregate latest artifact contains no entry
for AAPL at all — there is no carried-forward row and no freshness flag,
contradicting the claim that the new Snapshot entry retains the prior
date and values with fresh set to false. -/
theorem C1_counterexample :
    "AAPL" ∈ (fsAB.latest.getD []).map (fun r => r.sym) ∧
    okb (oAB "AAPL") = false ∧
    "AAPL" ∉ ((pymain fsAB oAB 2).1.latest.getD []).map (fun r => r.sym) := by
  decide

/-- C1 amended: src/fetch_ohlc.py performs no carry-forward.  A requested
symbol whose fetch fails is appended to the bad-ticker log, its previously
written raw per-symbol file is left untouched, and when the run writes a
new aggregate latest artifact the symbol is absent from it; no freshness
flag exists anywhere in the outputs. -/
theorem C1_no_carry_forward (fs : FS) (o : String → Except String (List Bar))
    (ydate : Nat) (sym : String)
    (hmem : sym ∈ read_tickers fs.tickersFile) (hfail : okb (o sym) = false) :
    sym ∈ badSyms (runLoop o (read_tickers fs.tickersFile)) ∧
    lookupRaw (pymain fs o ydate).1.raw sym = lookupRaw fs.raw sym ∧
    ((runLoop o (read_tickers fs.tickersFile)).frames ≠ [] →
      sym ∉ ((pymain fs o ydate).1.latest.getD []).map (fun r => r.sym)) := by
  have hnp : sym ∉ (runLoop o (read_tickers fs.tickersFile)).processed := by
    intro hp
    have h2 := ((mem_processed o _ sym).1 hp).2
    rw [hfail] at h2
    exact Bool.noConfusion h2
  refine ⟨(mem_badSyms o _ sym).2 ⟨hmem, hfail⟩, ?_, ?_⟩
  · rw [pymain_raw]
    apply lookupRaw_applyWrites
    rw [rawWrites_fst]
    exact hnp
  · intro hane hmem2
    rw [pymain_ok fs o ydate hane] at hmem2
    have hsnap : sym ∈ snapSyms (runLoop o (read_tickers fs.tickersFile)) := hmem2
    exact hnp (mem_flatten_syms_imp o _ sym ((mem_snapSyms_iff_flatten _ sym).1 hsnap))

/-- C1 witness: the amended statement applied to the concrete run fsAB
with the outcome oAB and the failed symbol AAPL. -/
theorem C1_witness :
    "AAPL" ∈ read_tickers fsAB.tickersFile ∧ okb (oAB "AAPL") = false ∧
    ("AAPL" ∈ badSyms (runLoop oAB (read_tickers fsAB.tickersFile)) ∧
      lookupRaw (pymain fsAB oAB 2).1.raw "AAPL" = lookupRaw fsAB.raw "AAPL" ∧
      ((runLoop oAB (read_tickers fsAB.tickersFile)).frames ≠ [] →
        "AAPL" ∉ ((pymain fsAB oAB 2).1.latest.getD []).map (fun r => r.sym))) :=
  ⟨by decide, by decide, C1_no_carry_forward fsAB oAB 2 "AAPL" (by decide) (by decide)⟩

/-- C2: completeness invariant of main in src/fetch_ohlc.py.  Every symbol
of the requested input set ends the run in exactly one of the aggregate
latest artifact produced by this run or the bad-ticker log: never in both
and never in neither.  The hypothesis that successful outcomes carry a
nonempty frame holds for the source fetcher because validate_df rejects
empty data frames. -/
theorem C2_completeness (fs : FS) (o : String → Except String (List Bar)) (ydate : Nat)
    (sym : String) (hmem : sym ∈ read_tickers fs.tickersFile)
    (hne : ∀ s l, o s = .ok l → l ≠ []) :
    ((sym ∈ snapSyms (runLoop o (read_tickers fs.tickersFile)) ∧
        sym ∉ badSyms (runLoop o (read_tickers fs.tickersFile))) ∨
      (sym ∉ snapSyms (runLoop o (read_tickers fs.tickersFile)) ∧
        sym ∈ badSyms (runLoop o (read_tickers fs.tickersFile)))) ∧
    (pymain fs o ydate).1.badLog = (runLoop o (read_tickers fs.tickersFile)).bad ∧
    ((runLoop o (read_tickers fs.tickersFile)).frames ≠ [] →
      (pymain fs o ydate).1.latest =
        some (sortRows (runLoop o (read_tickers fs.tickersFile)).frames.flatten)) := by
  refine ⟨?_, pymain_badLog fs o ydate, fun h => by rw [pymain_ok fs o ydate h]⟩
  cases hok : okb (o sym) with
  | true =>
    left
    constructor
    · exact (mem_snapSyms_iff_flatten _ sym).2
        (processed_imp_mem_flatten_syms o hne _ sym ((mem_processed o _ sym).2 ⟨hmem, hok⟩))
    · intro hb
      have h2 := ((mem_badSyms o _ sym).1 hb).2
      rw [hok] at h2
      exact Bool.noConfusion h2
  | false =>
    right
    constructor
    · intro hs
      have h2 := ((mem_processed o _ sym).1
        (mem_flatten_syms_imp o _ sym ((mem_snapSyms_iff_flatten _ sym).1 hs))).2
      rw [hok] at h2
      exact Bool.noConfusion h2
    · exact (mem_badSyms o _ sym).2 ⟨hmem, hok⟩

/-- C2 witness: the completeness statement applied to the concrete run
fsAB with the outcome oAB and the symbol AAPL, which ends the run in the
bad-ticker log only. -/
theorem C2_witness :
    "AAPL" ∈ read_tickers fsAB.tickersFile ∧
    ((("AAPL" ∈ snapSyms (runLoop oAB (read_tickers fsAB.tickersFile)) ∧
        "AAPL" ∉ badSyms (runLoop oAB (read_tickers fsAB.tickersFile))) ∨
      ("AAPL" ∉ snapSyms (runLoop oAB (read_tickers fsAB.tickersFile)) ∧
        "AAPL" ∈ badSyms (runLoop oAB (read_tickers fsAB.tickersFile)))) ∧
    (pymain fsAB oAB 2).1.badLog = (runLoop oAB (read_tickers fsAB.tickersFile)).bad ∧
    ((runLoop oAB (read_tickers fsAB.tickersFile)).frames ≠ [] →
      (pymain fsAB oAB 2).1.latest =
        some (sortRows (runLoop oAB (read_tickers fsAB.tickersFile)).frames.flatten))) :=
  ⟨by decide, C2_completeness fsAB oAB 2 "AAPL" (by decide) oAB_ok_nonempty⟩

/-- C3 counterexample: the manifest written by src/upload_r2_tickers.py is
a wholesale overwrite.  Starting from a bucket whose manifest records the
dated archive entry ohlc/2024-01-01.json, one further run produces a
manifest that no longer contains that entry, so the manifest does not
accumulate monotonically across runs. -/
theorem C3_counterexample :
    "ohlc/2024-01-01.json" ∈ prevManifest.files ∧
    (runUpload ⟨some prevManifest⟩ ["AAPL"] "2024-01-02T00:00:00Z").manifest =
      some (manifestFor ["AAPL"] "2024-01-02T00:00:00Z") ∧
    "ohlc/2024-01-01.json" ∉ (manifestFor ["AAPL"] "2024-01-02T00:00:00Z").files := by
  decide

/-- C3 amended: each run of src/upload_r2_tickers.py overwrites the
manifest with a freshly built object that is independent of whatever the
bucket previously held: after any two consecutive runs the manifest is
exactly the object built by the second run, whose files list is the constant
singleton ohlc/latest_sp500.json.  No previously recorded date or file
entry survives except that constant entry. -/
theorem C3_manifest_overwrite (b b' : Bucket) (t1 t2 : List String) (n1 n2 : String) :
    runUpload (runUpload b t1 n1) t2 n2 = runUpload (runUpload b' t1 n1) t2 n2 ∧
    (runUpload (runUpload b t1 n1) t2 n2).manifest = some (manifestFor t2 n2) ∧
    (manifestFor t2 n2).files = ["ohlc/latest_sp500.json"] :=
  ⟨rfl, rfl, rfl⟩

/-- C4 counterexample: with a source that fails every attempt with a
timeout, fetch_stooq issues exactly one request for the first candidate
symbol form and then advances: the first candidate is never attempted a
second time, so no retry against the same source ever happens. -/
theorem C4_counterexample :
    (fetch_stooq envTimeout "AAPL").attempted = ["aapl", "aapl.us"] ∧
    ¬ 2 ≤ (fetch_stooq envTimeout "AAPL").attempted.count "aapl" := by
  decide

/-- C4 amended: fetch_stooq in src/fetch_ohlc.py attempts each candidate
symbol form at most once, in the fixed order sym.lower() then
sym.lower() + ".us", stopping at the first success; there is no retry of
a failed candidate and every sleep it executes is the constant 0.5
seconds of the except branch, not an increasing backoff. -/
theorem C4_single_attempt (env : StooqEnv) (sym : String) :
    ((fetch_stooq env sym).attempted = [cand1 sym] ∨
      (fetch_stooq env sym).attempted = [cand1 sym, cand2 sym]) ∧
    ∀ d ∈ (fetch_stooq env sym).sleeps, d = 500 := by
  have hs1 := tryCand_sleep env (cand1 sym)
  have hs2 := tryCand_sleep env (cand2 sym)
  unfold fetch_stooq
  cases h1 : (tryCand env (cand1 sym)).1 with
  | ok df =>
    have he1 : tryCand env (cand1 sym) = (.ok df, (tryCand env (cand1 sym)).2) := by
      rw [← h1]
    rw [goCands_cons_ok env (cand1 sym) [cand2 sym] _ df _ he1]
    exact ⟨Or.inl rfl, by simp⟩
  | error e =>
    have he1 : tryCand env (cand1 sym) = (.error e, (tryCand env (cand1 sym)).2) := by
      rw [← h1]
    rw [goCands_cons_error env (cand1 sym) [cand2 sym] _ e _ he1]
    cases h2 : (tryCand env (cand2 sym)).1 with
    | ok df2 =>
      have he2 : tryCand env (cand2 sym) = (.ok df2, (tryCand env (cand2 sym)).2) := by
        rw [← h2]
      rw [goCands_cons_ok env (cand2 sym) [] e df2 _ he2]
      refine ⟨Or.inr rfl, ?_⟩
      intro d hd
      simp only [List.append_nil] at hd
      rcases hs1 with h0 | h500
      · rw [h0] at hd
        simp at hd
      · rw [h500] at hd
        simp at hd
        exact hd
    | error e2 =>
      have he2 : tryCand env (cand2 sym) = (.error e2, (tryCand env (cand2 sym)).2) := by
        rw [← h2]
      rw [goCands_cons_error env (cand2 sym) [] e e2 _ he2]
      refine ⟨Or.inr rfl, ?_⟩
      intro d hd
      simp only [goCands_nil, List.append_nil] at hd
      rw [List.mem_append] at hd
      rcases hd with hd | hd
      · rcases hs1 with h0 | h500
        · rw [h0] at hd
          simp at hd
        · rw [h500] at hd
          simp at hd
          exact hd
      · rcases hs2 with h0 | h500
        · rw [h0] at hd
          simp at hd
        · rw [h500] at hd
          simp at hd
          exact hd

/-- C5 counterexample: the aggregate latest artifact of src/fetch_ohlc.py
is sorted by Date first and Symbol second and keeps the full fetched
history, so in a run where BBB has the earliest bar and AAA two later
bars the symbol sequence is BBB, AAA, AAA: not lexicographically ordered
by Symbol, and with two records for one symbol rather than one. -/
theorem C5_counterexample :
    ((pymain fsBA oBA 99).1.latest.getD []).map (fun r => r.sym) = ["BBB", "AAA", "AAA"] ∧
    ¬ List.Pairwise (fun x y => symLe x y = true)
        (((pymain fsBA oBA 99).1.latest.getD []).map (fun r => r.sym)) ∧
    (((pymain fsBA oBA 99).1.latest.getD []).map (fun r => r.sym)).count "AAA" = 2 := by
  decide

/-- C5 amended: whenever the run writes the aggregate latest artifact,
its rows are exactly the concatenation of the fetched frames, one row per
fetched symbol and date, deterministically sorted by Date first and
Symbol second (the sort key of all_df.sort_values in main): a permutation
of the fetched rows that satisfies the Date-then-Symbol ordering, fully
determined by the fetch outcomes and independent of completion order. -/
theorem C5_sorted_by_date_then_symbol (fs : FS) (o : String → Except String (List Bar))
    (ydate : Nat)
    (hne : (runLoop o (read_tickers fs.tickersFile)).frames ≠ []) :
    ∃ rows : List Row, (pymain fs o ydate).1.latest = some rows ∧
      List.Sorted rowLe rows ∧
      rows.Perm (runLoop o (read_tickers fs.tickersFile)).frames.flatten :=
  ⟨sortRows (runLoop o (read_tickers fs.tickersFile)).frames.flatten,
    by rw [pymain_ok fs o ydate hne], List.sorted_insertionSort rowLe _,
    List.perm_insertionSort rowLe _⟩

/-- C5 witness: the amended statement applied to the concrete run fsBA
with the outcome oBA. -/
theorem C5_witness :
    (runLoop oBA (read_tickers fsBA.tickersFile)).frames ≠ [] ∧
    (∃ rows : List Row, (pymain fsBA oBA 99).1.latest = some rows ∧
      List.Sorted rowLe rows ∧
      rows.Perm (runLoop oBA (read_tickers fsBA.tickersFile)).frames.flatten) :=
  ⟨by decide, C5_sorted_by_date_then_symbol fsBA oBA 99 (by decide)⟩

/-- C6 counterexample: read_tickers in src/fetch_ohlc.py applied to the
input lines AAPL, aapl, BRK.B does not produce the claimed normalizer
output AAPL, BRK-B: no de-duplication, alias resolution or separator
substitution takes place. -/
theorem C6_counterexample :
    read_tickers ["AAPL", "aapl", "BRK.B"] ≠ ["AAPL", "BRK-B"] := by
  decide

/-- C6 amended: the only normalization read_tickers applies is per-line
strip and upper-case, so the input lines AAPL, aapl, BRK.B yield the list
AAPL, AAPL, BRK.B: the duplicate is kept and the period separator is left
as is. -/
theorem C6_trim_upper_only :
    read_tickers ["AAPL", "aapl", "BRK.B"] = ["AAPL", "AAPL", "BRK.B"] := by
  decide

/-- C7: content sniffing in src/fetch_ohlc.py.  When every HTTP response
body the environment can produce is empty after stripping or starts
(after stripping and lower-casing) with a markup-document prefix as
detected by is_html, fetch_stooq never returns a fetched data frame: the
body is rejected before the CSV parse is consulted, for every possible
parser, so such a payload is never accepted as a Bar. -/
theorem C7_html_never_accepted (env : StooqEnv) (sym : String)
    (h : ∀ c st txt, env.resp c = .http st txt →
      trimL txt.data = [] ∨ is_html txt = true) :
    ∀ df : List Bar, (fetch_stooq env sym).result ≠ .ok df := by
  intro df hdf
  have hall : ∀ c, ∃ e, (tryCand env c).1 = .error e := by
    intro c
    cases hr : env.resp c with
    | exn m =>
      refine ⟨m, ?_⟩
      unfold tryCand
      rw [hr]
    | http st txt => exact tryCand_html_error env c st txt hr (h c st txt hr)
  obtain ⟨e, he⟩ := goCands_all_error env hall [cand1 sym, cand2 sym] "unknown stooq error"
  unfold fetch_stooq at hdf
  rw [he] at hdf
  exact Except.noConfusion hdf

/-- C7 witness: the sniffing statement applied to the environment envHtml
whose every response is an HTML error page and whose parser would happily
accept anything. -/
theorem C7_witness :
    ¬ ∃ df : List Bar, (fetch_stooq envHtml "AAPL").result = .ok df := by
  rintro ⟨df, hdf⟩
  refine C7_html_never_accepted envHtml "AAPL" ?_ df hdf
  intro c st txt hr
  cases hr
  right
  decide

/-- C8: systemic failure behavior of main in src/fetch_ohlc.py.  When
every requested symbol fails, the run exits with code 1 and the latest
artifact, the yesterday artifact, tickers.txt and every raw per-symbol
file are left exactly as the previous run left them.  Only the bad-ticker
log is rebuilt, which the spec itself mandates on every run. -/
theorem C8_systemic_failure (fs : FS) (o : String → Except String (List Bar)) (ydate : Nat)
    (hall : ∀ s ∈ read_tickers fs.tickersFile, okb (o s) = false) :
    (pymain fs o ydate).2 = 1 ∧
    (pymain fs o ydate).1.latest = fs.latest ∧
    (pymain fs o ydate).1.yday = fs.yday ∧
    (pymain fs o ydate).1.tickersFile = fs.tickersFile ∧
    (pymain fs o ydate).1.raw = fs.raw := by
  obtain ⟨hf, hw⟩ := runLoop_all_fail o (read_tickers fs.tickersFile) hall
  rw [pymain_fail fs o ydate hf, hw]
  exact ⟨rfl, rfl, rfl, rfl, rfl⟩

/-- C8 witness: the systemic failure statement applied to the concrete
prior state fsAB with the outcome oDown that fails every symbol. -/
theorem C8_witness :
    (pymain fsAB oDown 1).2 = 1 ∧
    (pymain fsAB oDown 1).1.latest = fsAB.latest ∧
    (pymain fsAB oDown 1).1.yday = fsAB.yday ∧
    (pymain fsAB oDown 1).1.tickersFile = fsAB.tickersFile ∧
    (pymain fsAB oDown 1).1.raw = fsAB.raw :=
  C8_systemic_failure fsAB oDown 1 (fun _ _ => rfl)

/-- C10: when at least one symbol was fetched, main rewrites tickers.txt
with exactly the successfully processed symbols in processing order
(the input order filtered to the successful outcomes), so every symbol
that failed this run is removed from the input list of subsequent runs. -/
theorem C10_tickers_rewrite (fs : FS) (o : String → Except String (List Bar)) (ydate : Nat)
    (hne : (runLoop o (read_tickers fs.tickersFile)).frames ≠ []) :
    (pymain fs o ydate).1.tickersFile = (runLoop o (read_tickers fs.tickersFile)).processed ∧
    (runLoop o (read_tickers fs.tickersFile)).processed =
      (read_tickers fs.tickersFile).filter (fun s => okb (o s)) ∧
    ∀ sym : String, okb (o sym) = false → sym ∉ (pymain fs o ydate).1.tickersFile := by
  have ht : (pymain fs o ydate).1.tickersFile =
      (runLoop o (read_tickers fs.tickersFile)).processed := by
    rw [pymain_ok fs o ydate hne]
  refine ⟨ht, processed_eq_filter o _, ?_⟩
  intro sym hfail hmem
  rw [ht] at hmem
  have h2 := ((mem_processed o _ sym).1 hmem).2
  rw [hfail] at h2
  exact Bool.noConfusion h2

/-- C10 witness: the rewrite statement applied to the concrete run fsAB
with the outcome oAB, where MSFT succeeds and AAPL is removed. -/
theorem C10_witness :
    (runLoop oAB (read_tickers fsAB.tickersFile)).frames ≠ [] ∧
    ((pymain fsAB oAB 2).1.tickersFile =
        (runLoop oAB (read_tickers fsAB.tickersFile)).processed ∧
      (runLoop oAB (read_tickers fsAB.tickersFile)).processed =
        (read_tickers fsAB.tickersFile).filter (fun s => okb (oAB s)) ∧
      ∀ sym : String, okb (oAB sym) = false → sym ∉ (pymain fsAB oAB 2).1.tickersFile) :=
  ⟨by decide, C10_tickers_rewrite fsAB oAB 2 (by decide)⟩

/-- C9: the symbol normalization applied per line by read_tickers in
src/fetch_ohlc.py, namely t.strip().upper(), is idempotent: normalizing a
string twice equals normalizing it once, so a symbol that is already
canonical is returned unchanged.  Totality holds by construction: pynormS
is a function defined on every string and never fails. -/
theorem C9_normalize_idem (s : String) : pynormS (pynormS s) = pynormS s := by
  unfold pynormS
  exact congrArg String.mk (pynorm_idem s.data)

end SP500
